import Mathlib

/-!
# Verification of the medicosdoc directory scraper

A shallow embedding of `medicosdoc_scraper.py`.  JSON values served by the
origin are modelled by the inductive `JVal` (numbers are modelled as
integers; the scraper never computes with them, it only passes them
through).  Python exceptions are modelled by `PyErr` and fallible code
returns `Except PyErr _`.  Each definition mirrors one function of the
source file; deviations forced by the modelling (e.g. the Unicode
decomposition table) are noted in the corresponding doc comment.
-/

set_option maxHeartbeats 1000000

/-- A JSON value as served by the origin site.  Numeric literals are
modelled as integers (the scraper only passes numbers through, it never
computes with them), and objects as association lists with distinct keys. -/
inductive JVal where
  | null
  | bool (b : Bool)
  | num (n : Int)
  | str (s : String)
  | arr (xs : List JVal)
  | obj (fields : List (String × JVal))
deriving Repr

/-- The Python exception kinds raised by the code paths in scope. -/
inductive PyErr where
  | keyError (k : String)
  | typeError (msg : String)
  | attributeError (msg : String)
  | valueError (msg : String)
  | runtimeError (msg : String)
deriving Repr, DecidableEq

/-- First binding of a key in an association list (Python dict keys are
unique, so this is the dict lookup). -/
def jLookup : List (String × JVal) → String → Option JVal
  | [], _ => none
  | (k, v) :: rest, key => if k = key then some v else jLookup rest key

/-- Python truthiness of a JSON value. -/
def truthy : JVal → Bool
  | .null => false
  | .bool b => b
  | .num n => n != 0
  | .str s => s != ""
  | .arr xs => !xs.isEmpty
  | .obj fs => !fs.isEmpty

/-- Python `a or b` on JSON values. -/
def pyOr (a b : JVal) : JVal := if truthy a then a else b

/-- Python `d.get(k)` (default `None`): only defined on dicts, anything
else raises `AttributeError`. -/
def pyGet (v : JVal) (k : String) : Except PyErr JVal :=
  match v with
  | .obj fs => .ok ((jLookup fs k).getD .null)
  | _ => .error (.attributeError "object has no attribute get")

/-- Python `d.get(k, default)`. -/
def pyGetD (v : JVal) (k : String) (d : JVal) : Except PyErr JVal :=
  match v with
  | .obj fs => .ok ((jLookup fs k).getD d)
  | _ => .error (.attributeError "object has no attribute get")

/-- Python subscription `v[k]`: `KeyError` when the key is missing from a
dict, `TypeError` when the value is not a dict. -/
def indexE (v : JVal) (k : String) : Except PyErr JVal :=
  match v with
  | .obj fs =>
    match jLookup fs k with
    | some x => .ok x
    | none => .error (.keyError k)
  | _ => .error (.typeError "object is not subscriptable")

/-- Coerce a JSON value to a Lean string the way Python code that requires
a `str` does (anything else raises `TypeError`). -/
def asStr (v : JVal) : Except PyErr String :=
  match v with
  | .str s => .ok s
  | _ => .error (.typeError "expected str")

/-- Python iteration over a JSON value, modelled for arrays (the only
iterables the scraper's data paths produce). -/
def asList (v : JVal) : Except PyErr (List JVal) :=
  match v with
  | .arr xs => .ok xs
  | _ => .error (.typeError "object is not iterable")

/-- Value of a nonempty all-digit character list, else `none`. -/
def decDigits (cs : List Char) : Option Nat :=
  if cs ≠ [] ∧ cs.all Char.isDigit then
    some (cs.foldl (fun a c => a * 10 + (c.toNat - 48)) 0)
  else none

/-- Python `int(v)` on the value kinds in scope: integers pass through,
booleans coerce to 0/1, plain decimal strings (with optional sign) parse,
everything else raises.  (Python also tolerates surrounding whitespace and
underscores in the literal; those never occur in the data in scope.) -/
def pyInt (v : JVal) : Except PyErr Int :=
  match v with
  | .num n => .ok n
  | .bool b => .ok (if b then 1 else 0)
  | .str s =>
    match s.data with
    | '-' :: rest =>
      match decDigits rest with
      | some n => .ok (-(n : Int))
      | none => .error (.valueError "invalid literal for int")
    | cs =>
      match decDigits cs with
      | some n => .ok (n : Int)
      | none => .error (.valueError "invalid literal for int")
  | _ => .error (.typeError "int argument must be a string or a number")

/-- Python whitespace in the ASCII range (what `str.strip` removes from
the ASCII-only text it is applied to here). -/
def pySpace (c : Char) : Bool :=
  c = ' ' || c = '\t' || c = '\n' || c = '\x0b' || c = '\x0c' || c = '\r' ||
  c = '\x1c' || c = '\x1d' || c = '\x1e' || c = '\x1f'

/-- Per-character lowercasing.  `str.lower` is only applied to ASCII-only
text in the source (the accent-stripping filter runs first), where it is
exactly the A-Z shift. -/
def pyLowerChar (c : Char) : Char :=
  if 65 ≤ c.toNat ∧ c.toNat ≤ 90 then Char.ofNat (c.toNat + 32) else c

/-- Per-character NFKD decomposition (`unicodedata.normalize("NFKD", _)`).
Modelled restriction: ASCII characters are NFKD-invariant (true of real
NFKD, and the only property the development relies on); the accented Latin
letters appearing in the directory data decompose per the explicit table;
other non-ASCII characters are kept as-is. -/
def nfkdChar (c : Char) : List Char :=
  if c.toNat < 128 then [c]
  else if c = 'á' then ['a', '́']
  else if c = 'é' then ['e', '́']
  else if c = 'í' then ['i', '́']
  else if c = 'ó' then ['o', '́']
  else if c = 'ú' then ['u', '́']
  else if c = 'ñ' then ['n', '̃']
  else if c = 'ü' then ['u', '̈']
  else if c = 'Á' then ['A', '́']
  else if c = 'É' then ['E', '́']
  else if c = 'Í' then ['I', '́']
  else if c = 'Ó' then ['O', '́']
  else if c = 'Ú' then ['U', '́']
  else if c = 'Ñ' then ['N', '̃']
  else if c = 'Ü' then ['U', '̈']
  else [c]

/-- `str.strip()`: drop leading and trailing whitespace. -/
def stripChars (cs : List Char) : List Char :=
  ((cs.dropWhile pySpace).reverse.dropWhile pySpace).reverse

/-- `_normalize_text`: NFKD-decompose, drop non-ASCII code points,
lowercase, trim. -/
def _normalize_text (s : String) : String :=
  String.mk (stripChars (((s.data.flatMap nfkdChar).filter
    (fun c => c.toNat < 128)).map pyLowerChar))

theorem toNat_ofNat_lt {n : Nat} (h : n < 55296) : (Char.ofNat n).toNat = n := by
  unfold Char.ofNat
  rw [dif_pos (Or.inl h)]
  rfl

theorem nfkd_ascii {c : Char} (h : c.toNat < 128) : nfkdChar c = [c] := by
  simp [nfkdChar, h]

theorem lower_lt {c : Char} (h : c.toNat < 128) : (pyLowerChar c).toNat < 128 := by
  unfold pyLowerChar
  split
  · next hc => rw [toNat_ofNat_lt (by omega)]; omega
  · exact h

theorem lower_idem (c : Char) : pyLowerChar (pyLowerChar c) = pyLowerChar c := by
  unfold pyLowerChar
  split
  · next hc =>
    rw [if_neg]
    rw [toNat_ofNat_lt (by omega)]
    omega
  · rfl

theorem flatMap_nfkd_fixed {l : List Char} (h : ∀ c ∈ l, c.toNat < 128) :
    l.flatMap nfkdChar = l := by
  induction l with
  | nil => rfl
  | cons c cs ih =>
    rw [List.flatMap_cons, nfkd_ascii (h c (by simp)),
      ih (fun x hx => h x (by simp [hx]))]
    rfl

theorem map_fixed {l : List Char} {f : Char → Char} (h : ∀ c ∈ l, f c = c) :
    l.map f = l := by
  induction l with
  | nil => rfl
  | cons c cs ih =>
    rw [List.map_cons, h c (by simp), ih (fun x hx => h x (by simp [hx]))]

theorem head_dropWhile {p : Char → Bool} {l : List Char} {c : Char}
    (h : (l.dropWhile p).head? = some c) : p c = false := by
  induction l with
  | nil => simp [List.dropWhile] at h
  | cons a as ih =>
    rw [List.dropWhile_cons] at h
    by_cases hp : p a
    · rw [if_pos hp] at h; exact ih h
    · rw [if_neg hp] at h
      simp at h
      rw [← h]
      simp [hp]

theorem dropWhile_of_head {p : Char → Bool} {l : List Char}
    (h : ∀ c, l.head? = some c → p c = false) : l.dropWhile p = l := by
  cases l with
  | nil => rfl
  | cons a as =>
    rw [List.dropWhile_cons, if_neg (by simp [h a rfl])]

theorem getLast_dropWhile {p : Char → Bool} {l : List Char} {c : Char}
    (h : (l.dropWhile p).getLast? = some c) : l.getLast? = some c := by
  induction l with
  | nil => simp [List.dropWhile] at h
  | cons a as ih =>
    rw [List.dropWhile_cons] at h
    by_cases hp : p a
    · rw [if_pos hp] at h
      have has := ih h
      cases as with
      | nil => simp at has
      | cons b bs => rw [List.getLast?_cons_cons]; exact has
    · rwa [if_neg hp] at h

theorem mem_strip {l : List Char} {c : Char} (h : c ∈ stripChars l) : c ∈ l := by
  unfold stripChars at h
  rw [List.mem_reverse] at h
  have h2 := (List.dropWhile_sublist (l := (l.dropWhile pySpace).reverse)
    (p := pySpace)).subset h
  rw [List.mem_reverse] at h2
  exact (List.dropWhile_sublist (l := l) (p := pySpace)).subset h2

theorem strip_of_clean {l : List Char}
    (hh : ∀ c, l.head? = some c → pySpace c = false)
    (hl : ∀ c, l.getLast? = some c → pySpace c = false) :
    stripChars l = l := by
  unfold stripChars
  rw [dropWhile_of_head hh,
    dropWhile_of_head (fun c hc => hl c (by rwa [List.head?_reverse] at hc)),
    List.reverse_reverse]

theorem strip_clean_head {l : List Char} :
    ∀ c, (stripChars l).head? = some c → pySpace c = false := by
  intro c hc
  unfold stripChars at hc
  rw [List.head?_reverse] at hc
  have h2 := getLast_dropWhile hc
  rw [List.getLast?_reverse] at h2
  exact head_dropWhile h2

theorem strip_clean_last {l : List Char} :
    ∀ c, (stripChars l).getLast? = some c → pySpace c = false := by
  intro c hc
  unfold stripChars at hc
  rw [List.getLast?_reverse] at hc
  exact head_dropWhile hc

/-- The normalisation pipeline on character lists. -/
def normPipe (l : List Char) : List Char :=
  stripChars (((l.flatMap nfkdChar).filter (fun c => c.toNat < 128)).map pyLowerChar)

theorem normPipe_fixed {l : List Char}
    (hascii : ∀ c ∈ l, c.toNat < 128)
    (hlow : ∀ c ∈ l, pyLowerChar c = c)
    (hh : ∀ c, l.head? = some c → pySpace c = false)
    (hl : ∀ c, l.getLast? = some c → pySpace c = false) :
    normPipe l = l := by
  unfold normPipe
  rw [flatMap_nfkd_fixed hascii,
    List.filter_eq_self.mpr (fun c hc => by simp [hascii c hc]),
    map_fixed hlow, strip_of_clean hh hl]

theorem normPipe_props (l : List Char) :
    (∀ c ∈ normPipe l, c.toNat < 128 ∧ pyLowerChar c = c) ∧
    (∀ c, (normPipe l).head? = some c → pySpace c = false) ∧
    (∀ c, (normPipe l).getLast? = some c → pySpace c = false) := by
  refine ⟨fun c hc => ?_, strip_clean_head, strip_clean_last⟩
  have hmem := mem_strip hc
  rw [List.mem_map] at hmem
  obtain ⟨d, hd, rfl⟩ := hmem
  rw [List.mem_filter] at hd
  have hd128 : d.toNat < 128 := by simpa using hd.2
  exact ⟨lower_lt hd128, lower_idem d⟩

/-- C7: the text normalizer is idempotent:
`_normalize_text (_normalize_text x) = _normalize_text x` for every input. -/
theorem C7_normalize_idem (s : String) :
    _normalize_text (_normalize_text s) = _normalize_text s := by
  show String.mk (normPipe (String.mk (normPipe s.data)).data)
    = String.mk (normPipe s.data)
  have hdata : (String.mk (normPipe s.data)).data = normPipe s.data := rfl
  rw [hdata]
  obtain ⟨h1, h2, h3⟩ := normPipe_props s.data
  rw [normPipe_fixed (fun c hc => (h1 c hc).1) (fun c hc => (h1 c hc).2) h2 h3]

/-- Characters allowed in a URL scheme (`urllib.parse.scheme_chars`):
ASCII letters and digits, `+`, `-`, `.`. -/
def schemeChar (c : Char) : Bool :=
  (65 ≤ c.toNat ∧ c.toNat ≤ 90) || (97 ≤ c.toNat ∧ c.toNat ≤ 122) ||
  (48 ≤ c.toNat ∧ c.toNat ≤ 57) || c = '+' || c = '-' || c = '.'

/-- Characters that may appear in a netloc (`urlsplit` stops the netloc at
the first `/`, `?` or `#`). -/
def netlocChar (c : Char) : Bool :=
  c != '/' && c != '?' && c != '#'

/-- ASCII letter (the `url[:1].isalpha()` check of `urlsplit`). -/
def alphaChar (c : Char) : Bool :=
  (65 ≤ c.toNat ∧ c.toNat ≤ 90) || (97 ≤ c.toNat ∧ c.toNat ≤ 122)

/-- Scheme extraction of `urlsplit`: succeeds when the URL starts with an
ASCII letter followed by scheme characters and a colon; the scheme is
lowercased. -/
def splitScheme (cs : List Char) : Option (List Char × List Char) :=
  match cs with
  | [] => none
  | d :: _ =>
    if alphaChar d then
      match cs.dropWhile schemeChar with
      | c :: rest =>
        if c = ':' then some ((cs.takeWhile schemeChar).map pyLowerChar, rest)
        else none
      | [] => none
    else none

/-- Netloc extraction of `urlsplit`: a leading `//` introduces the netloc,
which extends to the next `/`, `?` or `#`. -/
def netSplit (cs : List Char) : List Char × List Char :=
  match cs with
  | c1 :: c2 :: rest =>
    if c1 = '/' ∧ c2 = '/' then (rest.takeWhile netlocChar, rest.dropWhile netlocChar)
    else ([], cs)
  | _ => ([], cs)

/-- `urllib.parse.urlparse`, restricted to the (scheme, netloc, path)
components.  The URLs and photo paths in scope carry no parameters, query
or fragment, so those components are not modelled. -/
def urlparse3 (u : String) : String × String × String :=
  match splitScheme u.data with
  | some (sch, rest) =>
    (String.mk sch, String.mk (netSplit rest).1, String.mk (netSplit rest).2)
  | none =>
    ("", String.mk (netSplit u.data).1, String.mk (netSplit u.data).2)

/-- The character list starts with `//`. -/
def startsSlashSlash : List Char → Bool
  | c1 :: c2 :: _ => c1 = '/' && c2 = '/'
  | _ => false

/-- The character list starts with `/`. -/
def startsSlash : List Char → Bool
  | c :: _ => c = '/'
  | _ => false

/-- `urllib.parse.urlunparse` on (scheme, netloc, path) with empty
parameters, query and fragment. -/
def urlunparse3 (scheme netloc path : String) : String :=
  let url := if netloc != "" || startsSlashSlash path.data then
    "//" ++ netloc ++ (if path != "" && !startsSlash path.data then "/" ++ path else path)
  else path
  if scheme != "" then scheme ++ ":" ++ url else url

/-- `MedicosDocScraper._base_root`: scheme+host root of a URL, with a
trailing slash. -/
def _base_root (directory_url : String) : String :=
  urlunparse3 (urlparse3 directory_url).1 (urlparse3 directory_url).2.1 "/"

/-- `urllib.parse.uses_relative`. -/
def usesRelative : List String := ["", "ftp", "http", "gopher", "nntp", "imap",
  "wais", "file", "https", "shttp", "mms", "prospero", "rtsp", "rtspu", "sftp",
  "svn", "svn+ssh", "ws", "wss"]

/-- `urllib.parse.uses_netloc`. -/
def usesNetloc : List String := ["", "ftp", "http", "gopher", "nntp", "telnet",
  "imap", "wais", "file", "mms", "https", "shttp", "snews", "prospero", "rtsp",
  "rtspu", "rsync", "svn", "svn+ssh", "sftp", "nfs", "git", "git+ssh", "ws",
  "wss"]

/-- `path.split("/")` on character lists (Python `str.split` with an
explicit separator; the empty string yields a single empty segment). -/
def splitSegs : List Char → List (List Char)
  | [] => [[]]
  | c :: rest =>
    if c = '/' then [] :: splitSegs rest
    else
      match splitSegs rest with
      | s :: ss => (c :: s) :: ss
      | [] => [[c]]

/-- `"/".join(...)` on character lists. -/
def joinSegs : List (List Char) → List Char
  | [] => []
  | [s] => s
  | s :: rest => s ++ '/' :: joinSegs rest

/-- The dot-segment resolution loop of `urljoin` (accumulator holds the
resolved segments in reverse; `..` pops, `.` is dropped). -/
def resolveSegs (acc : List (List Char)) : List (List Char) → List (List Char)
  | [] => acc.reverse
  | seg :: rest =>
    if seg = ['.', '.'] then resolveSegs (acc.drop 1) rest
    else if seg = ['.'] then resolveSegs acc rest
    else resolveSegs (seg :: acc) rest

/-- `segments[1:-1] = filter(None, segments[1:-1])`: drop empty interior
segments, keeping the first and last. -/
def filterMidAux : List (List Char) → List (List Char)
  | [] => []
  | [x] => [x]
  | x :: rest => if x = [] then filterMidAux rest else x :: filterMidAux rest

/-- See `filterMidAux`. -/
def filterMid : List (List Char) → List (List Char)
  | [] => []
  | [x] => [x]
  | x :: rest => x :: filterMidAux rest

/-- `urllib.parse.urljoin`, following the CPython implementation,
restricted to URLs without parameters, query or fragment (none occur in
the data in scope). -/
def urljoin (base url : String) : String :=
  if base = "" then url
  else if url = "" then base
  else
    let bscheme := (urlparse3 base).1
    let bnetloc := (urlparse3 base).2.1
    let bpath := (urlparse3 base).2.2
    let parsedU :=
      match splitScheme url.data with
      | some (sch, rest) =>
        (String.mk sch, String.mk (netSplit rest).1, String.mk (netSplit rest).2)
      | none =>
        (bscheme, String.mk (netSplit url.data).1, String.mk (netSplit url.data).2)
    let uscheme := parsedU.1
    let unetloc := parsedU.2.1
    let upath := parsedU.2.2
    if uscheme != bscheme || !usesRelative.contains uscheme then url
    else if usesNetloc.contains uscheme && unetloc != "" then
      urlunparse3 uscheme unetloc upath
    else
      let netloc := if usesNetloc.contains uscheme then bnetloc else unetloc
      if upath = "" then urlunparse3 uscheme netloc bpath
      else
        let segs :=
          if startsSlash upath.data then splitSegs upath.data
          else
            let baseSegs := splitSegs bpath.data
            let baseSegs :=
              if baseSegs.getLast? = some ([] : List Char) then baseSegs
              else baseSegs.dropLast
            filterMid (baseSegs ++ splitSegs upath.data)
        let resolved := resolveSegs [] segs
        let resolved :=
          if segs.getLast? = some ['.'] || segs.getLast? = some ['.', '.'] then
            resolved ++ [[]]
          else resolved
        let pathStr :=
          if joinSegs resolved = [] then "/" else String.mk (joinSegs resolved)
        urlunparse3 uscheme netloc pathStr

/-- `pat` begins `l` (character-list level `startsWith`). -/
def listStarts : List Char → List Char → Bool
  | [], _ => true
  | _ :: _, [] => false
  | p :: ps, c :: cs => p = c && listStarts ps cs

/-- `pat` occurs contiguously in the list (Python substring containment). -/
def listHasSub (pat : List Char) : List Char → Bool
  | [] => pat.isEmpty
  | c :: cs => listStarts pat (c :: cs) || listHasSub pat cs

/-- Python `sub in s` on strings. -/
def pyIn (sub s : String) : Bool := listHasSub sub.data s.data

/-- `str.strip()` on strings. -/
def pyStrip (s : String) : String := String.mk (stripChars s.data)

/-- `MedicosDocScraper._doctor_specialty`: English category name if
truthy, else the localized one (`None`/absent propagates as `null`). -/
def _doctor_specialty (doctor : JVal) : Except PyErr JVal := do
  let ss ← pyGet doctor "SubSpecialties"
  let spRaw ← pyGet (pyOr ss (.obj [])) "Specialty"
  let eng ← pyGet (pyOr spRaw (.obj [])) "SpecialityNameEnglish"
  let loc ← pyGet (pyOr spRaw (.obj [])) "SpecialityName"
  pure (pyOr eng loc)

/-- `MedicosDocScraper._build_name`: trimmed given name, space, trimmed
family name, trimmed again. -/
def _build_name (doctor : JVal) : Except PyErr String := do
  let nameV ← pyGet doctor "Name"
  let first ← asStr (pyOr nameV (.str ""))
  let lastV ← pyGet doctor "LastName"
  let last ← asStr (pyOr lastV (.str ""))
  pure (pyStrip (pyStrip first ++ " " ++ pyStrip last))

/-- The loop body of `filter_by_specialty`: entries with a falsy category
are skipped, matching ones are kept in order. -/
def filterLoop (target : String) : List JVal → Except PyErr (List JVal)
  | [] => .ok []
  | d :: rest => do
    let sp ← _doctor_specialty d
    if truthy sp then
      let s ← asStr sp
      let restM ← filterLoop target rest
      if pyIn target (_normalize_text s) then pure (d :: restM) else pure restM
    else
      filterLoop target rest

/-- `MedicosDocScraper.filter_by_specialty`.  (The `print` diagnostic does
not affect the returned value and is not modelled.) -/
def filter_by_specialty (doctors : List JVal) (specialty : String) :
    Except PyErr (List JVal) :=
  filterLoop (_normalize_text specialty) doctors

/-- `NormalizedRecord`, the output shape of `to_record`.  Fields the code
always computes as a string or boolean are typed as such; fields passed
through from the JSON keep type `JVal` (absent ⇒ `JVal.null`). -/
structure Record where
  id : JVal
  name : String
  specialty : JVal
  city : JVal
  address : JVal
  medical_center : JVal
  office : JVal
  highlighted_services : JVal
  consult_value : JVal
  premium : Bool
  rating_average : JVal
  rating_count : JVal
  photo_url : String
deriving Repr

/-- `MedicosDocScraper.to_record`.  The specialty chain of lines 69-74 is
the `_doctor_specialty` chain followed by `or ""`, so it is expressed by
reusing `_doctor_specialty` (identical accesses, identical errors). -/
def to_record (doctor : JVal) (directory_url : String) : Except PyErr Record := do
  let headRaw ← pyGet doctor "Headquarters"
  let specialtyV ← _doctor_specialty doctor
  let shortId ← pyGet doctor "ShortId"
  let rawId ← pyGet doctor "_id"
  let name ← _build_name doctor
  let cityRaw ← pyGet (pyOr headRaw (.obj [])) "CityId"
  let cityName ← pyGet (pyOr cityRaw (.obj [])) "Name"
  let address ← pyGet (pyOr headRaw (.obj [])) "Address"
  let center ← pyGet (pyOr headRaw (.obj [])) "MedicalCenter"
  let office ← pyGet (pyOr headRaw (.obj [])) "Office"
  let hsEng ← pyGet doctor "HighlightedServicesEnglish"
  let hs ← pyGet doctor "HighlightedServices"
  let consult ← pyGet doctor "ConsultValue"
  let premiumV ← pyGet doctor "Premium"
  let ratings ← pyGet doctor "RatingsSummary"
  let ratingAvg ← pyGet (pyOr ratings (.obj [])) "averageRating"
  let ratingCnt ← pyGet (pyOr ratings (.obj [])) "numberOfRatings"
  let photosV ← pyGet doctor "Photos"
  let photo ← asStr (pyOr photosV (.str ""))
  pure {
    id := pyOr shortId rawId
    name := name
    specialty := pyOr specialtyV (.str "")
    city := cityName
    address := address
    medical_center := center
    office := office
    highlighted_services := pyOr hsEng hs
    consult_value := consult
    premium := truthy premiumV
    rating_average := ratingAvg
    rating_count := ratingCnt
    photo_url := urljoin (_base_root directory_url) photo }

/-- `MedicosDocScraper._fetch_page` applied to the JSON payload the data
endpoint returned: extract `payload["pageProps"]["directoryDoctors"]["data"]`,
converting a `KeyError` into the descriptive `RuntimeError`. -/
def _fetch_page (payload : JVal) (page : Int) : Except PyErr JVal :=
  match (do
    let a ← indexE payload "pageProps"
    let b ← indexE a "directoryDoctors"
    indexE b "data" : Except PyErr JVal) with
  | .ok v => .ok v
  | .error (.keyError _) =>
    .error (.runtimeError ("Unexpected response shape for page " ++ toString page))
  | .error e => .error e

/-- One HTTP request issued by the scraper: the initial directory page, or
the data endpoint for a given page number. -/
inductive Request where
  | initial
  | dataPage (n : Int)
deriving Repr, DecidableEq

/-- The origin site, abstracted past the HTML/HTTP layer: `firstPage` is
the `directoryDoctors` object extracted from the initial page's embedded
payload, `pageResponse n` the JSON payload the data endpoint serves for
page `n`.  (Network failures and extraction failures of
`_parse_initial_payload` are outside the claims in scope.) -/
structure Site where
  firstPage : JVal
  pageResponse : Int → JVal

/-- Python `range(lo, hi + 1)` as a list of integers `lo..hi`. -/
def intRange (lo hi : Int) : List Int :=
  (List.range (hi + 1 - lo).toNat).map (fun (i : Nat) => lo + (i : Int))

/-- The paging loop of `fetch_doctors`: request each page in order,
extract its entries, stop at the first failure.  Returns the requests
issued and the concatenated entries. -/
def fetchPages (site : Site) : List Int → List Request × Except PyErr (List JVal)
  | [] => ([], .ok [])
  | p :: rest =>
    match (do asList (← _fetch_page (site.pageResponse p) p) :
        Except PyErr (List JVal)) with
    | .error e => ([.dataPage p], .error e)
    | .ok xs =>
      let r := fetchPages site rest
      (.dataPage p :: r.1, r.2.map (fun ys => xs ++ ys))

/-- The body of `fetch_doctors` after the `max_pages` validation: fetch
the initial page, read the total page count and first-page entries from
the embedded payload, then page through the data endpoint. -/
def fetchBody (site : Site) (max_pages : Option Int) :
    List Request × Except PyErr (List JVal) :=
    match (do
      let tp ← pyGetD site.firstPage "totalPages" (.num 1)
      let total_pages ← pyInt tp
      let dataV ← pyGetD site.firstPage "data" (.arr [])
      let firstData ← asList dataV
      pure (total_pages, firstData) : Except PyErr (Int × List JVal)) with
    | .error e => ([.initial], .error e)
    | .ok (total_pages, firstData) =>
      let pages_to_fetch :=
        match max_pages with
        | none => total_pages
        | some m => min total_pages m
      let r := fetchPages site (intRange 2 pages_to_fetch)
      (.initial :: r.1, r.2.map (fun ys => firstData ++ ys))

/-- `MedicosDocScraper.fetch_doctors`, run to exhaustion: the requests it
issues and either the list of all yielded entries or the exception raised.
The Python function is a generator, so its body - including the
`max_pages` validation - runs on first iteration, not at call time; this
definition is the result of that first iteration run to the end. -/
def fetch_doctors (site : Site) (max_pages : Option Int) :
    List Request × Except PyErr (List JVal) :=
  match max_pages with
  | some m =>
    if m < 1 then ([], .error (.valueError "max_pages must be at least 1"))
    else fetchBody site (some m)
  | none => fetchBody site none

/-- The fixed CSV header of `write_output`. -/
def fieldnames : List String := ["id", "name", "specialty", "city", "address",
  "medical_center", "office", "highlighted_services", "consult_value",
  "premium", "rating_average", "rating_count", "photo_url"]

mutual

/-- Python `str(...)` for values reaching the CSV writer.  Strings render
bare; nested containers are rendered in Python style except that the
quoting of strings inside containers is not reproduced (no claim in scope
depends on the text of a container cell). -/
def pyStr : JVal → String
  | .null => "None"
  | .bool b => if b then "True" else "False"
  | .num n => toString n
  | .str s => s
  | .arr xs => "[" ++ pyStrArr xs ++ "]"
  | .obj fs => "\x7b" ++ pyStrObj fs ++ "\x7d"

/-- Comma-joined rendering of array elements (see `pyStr`). -/
def pyStrArr : List JVal → String
  | [] => ""
  | [x] => pyStr x
  | x :: rest => pyStr x ++ ", " ++ pyStrArr rest

/-- Comma-joined rendering of object entries (see `pyStr`). -/
def pyStrObj : List (String × JVal) → String
  | [] => ""
  | [(k, v)] => k ++ ": " ++ pyStr v
  | (k, v) :: rest => k ++ ": " ++ pyStr v ++ ", " ++ pyStrObj rest

end

/-- The cell the `csv` module writes for one value: `None` becomes the
empty cell, anything else its `str()`. -/
def csvCell (v : JVal) : String :=
  match v with
  | .null => ""
  | v => pyStr v

/-- Field selection of `csv.DictWriter` (`rowdict.get(key, restval)` with
`restval = None`), reading the record as the dict `to_record` built. -/
def recordField (r : Record) (f : String) : JVal :=
  if f = "id" then r.id
  else if f = "name" then .str r.name
  else if f = "specialty" then r.specialty
  else if f = "city" then r.city
  else if f = "address" then r.address
  else if f = "medical_center" then r.medical_center
  else if f = "office" then r.office
  else if f = "highlighted_services" then r.highlighted_services
  else if f = "consult_value" then r.consult_value
  else if f = "premium" then .bool r.premium
  else if f = "rating_average" then r.rating_average
  else if f = "rating_count" then r.rating_count
  else if f = "photo_url" then .str r.photo_url
  else .null

/-- The CSV branch of `write_output`, at the row level: the header row,
then one row per record in input order, each row holding the cells for
`fieldnames` in order.  (The byte-level quoting of the `csv` module is
below this abstraction: a row is modelled as its list of cell texts; the
JSON branch of `write_output` is not touched by any claim.) -/
def write_output_csv (records : List Record) : List (List String) :=
  fieldnames ::
    records.map (fun r => fieldnames.map (fun f => csvCell (recordField r f)))

/-- C9: for every `max_pages` value that is not `None` and is below 1,
`fetch_doctors` raises `ValueError("max_pages must be at least 1")` and
issues no HTTP request at all (empty request trace).  The check sits
inside the generator body, so Python surfaces it on first iteration, not
at call time. -/
theorem C9_max_pages_validation (site : Site) (m : Int) (h : m < 1) :
    fetch_doctors site (some m)
      = ([], .error (.valueError "max_pages must be at least 1")) := by
  simp [fetch_doctors, h]

theorem C9_max_pages_validation_witness :
    fetch_doctors ⟨.obj [], fun _ => .null⟩ (some 0)
      = ([], .error (.valueError "max_pages must be at least 1")) :=
  C9_max_pages_validation ⟨.obj [], fun _ => .null⟩ 0 (by decide)

/-- C4: for a page number n ≥ 2, `_fetch_page` returns the value found at
`pageProps → directoryDoctors → data` when those keys resolve, and when a
dict along the chain lacks the expected key it raises an error whose
message contains the page number n. -/
theorem C4_fetch_page_shape (payload : JVal) (n : Int) (hn : 2 ≤ n) :
    (∀ v, (do
        let a ← indexE payload "pageProps"
        let b ← indexE a "directoryDoctors"
        indexE b "data" : Except PyErr JVal) = .ok v →
      _fetch_page payload n = .ok v) ∧
    (∀ k, (do
        let a ← indexE payload "pageProps"
        let b ← indexE a "directoryDoctors"
        indexE b "data" : Except PyErr JVal) = .error (.keyError k) →
      _fetch_page payload n
          = .error (.runtimeError ("Unexpected response shape for page " ++ toString n)) ∧
        ∃ pre post, "Unexpected response shape for page " ++ toString n
          = pre ++ toString n ++ post) := by
  constructor
  · intro v hv
    unfold _fetch_page
    rw [hv]
  · intro k hk
    refine ⟨?_, "Unexpected response shape for page ", "", by simp⟩
    unfold _fetch_page
    rw [hk]

theorem C4_fetch_page_shape_witness :
    _fetch_page (.obj [("pageProps", .obj [])]) 4
        = .error (.runtimeError "Unexpected response shape for page 4") ∧
    _fetch_page (.obj [("pageProps", .obj [("directoryDoctors",
        .obj [("data", .arr [])])])]) 2 = .ok (.arr []) := by
  constructor
  · exact ((C4_fetch_page_shape (.obj [("pageProps", .obj [])]) 4 (by decide)).2
      "directoryDoctors" rfl).1
  · exact (C4_fetch_page_shape (.obj [("pageProps", .obj [("directoryDoctors",
      .obj [("data", .arr [])])])]) 2 (by decide)).1 (.arr []) rfl

theorem mem_intRange {lo hi p : Int} : p ∈ intRange lo hi ↔ lo ≤ p ∧ p ≤ hi := by
  unfold intRange
  simp only [List.mem_map, List.mem_range]
  constructor
  · rintro ⟨i, hi, rfl⟩
    omega
  · rintro ⟨h1, h2⟩
    exact ⟨(p - lo).toNat, by omega, by omega⟩

/-- Site used in the C10 counterexample: no `totalPages` field, one
first-page entry. -/
def c10Site : Site :=
  { firstPage := .obj [("data", .arr [.str "a1"])], pageResponse := fun _ => .null }

/-- C10 counterexample: with the `totalPages` field absent but
`max_pages = 0`, `fetch_doctors` does not yield the first page's entries
(it raises `ValueError` instead), so the behaviour is not independent of
`max_pages`. -/
theorem C10_counterexample :
    (fetch_doctors c10Site (some 0)).2 ≠ .ok [.str "a1"] := by
  intro h
  rw [show fetch_doctors c10Site (some 0)
    = ([], .error (.valueError "max_pages must be at least 1")) from rfl] at h
  exact Except.noConfusion h

/-- C10 (amended): if the first-page payload lacks a `totalPages` field,
the total page count is treated as 1: for every `max_pages` that is
`None` or at least 1, `fetch_doctors` yields exactly the first page's
entries and issues no data-endpoint request (with `max_pages` below 1 it
raises `ValueError` before any request instead). -/
theorem C10_no_totalPages (site : Site) (fs : List (String × JVal))
    (first : List JVal) (mp : Option Int)
    (hobj : site.firstPage = .obj fs)
    (htp : jLookup fs "totalPages" = none)
    (hd : jLookup fs "data" = some (.arr first))
    (hmp : mp = none ∨ ∃ m, mp = some m ∧ 1 ≤ m) :
    fetch_doctors site mp = ([.initial], .ok first) ∧
    ∀ p, Request.dataPage p ∉ (fetch_doctors site mp).1 := by
  have hbody : fetchBody site mp = ([.initial], .ok first) := by
    unfold fetchBody
    rw [show (do
      let tp ← pyGetD site.firstPage "totalPages" (.num 1)
      let total_pages ← pyInt tp
      let dataV ← pyGetD site.firstPage "data" (.arr [])
      let firstData ← asList dataV
      pure (total_pages, firstData) : Except PyErr (Int × List JVal))
        = .ok (1, first) by
      rw [hobj]
      simp only [pyGetD, htp, hd, Option.getD]
      rfl]
    have hpf : (match mp with
        | none => (1 : Int)
        | some m => min 1 m) = 1 := by
      rcases hmp with rfl | ⟨m, rfl, hm⟩
      · rfl
      · simp; omega
    simp only [hpf]
    rw [show intRange 2 1 = [] from rfl]
    simp [fetchPages, Except.map]
  have hfd : fetch_doctors site mp = ([.initial], .ok first) := by
    rcases hmp with rfl | ⟨m, rfl, hm⟩
    · exact hbody
    · rw [show fetch_doctors site (some m)
        = if m < 1 then ([], .error (.valueError "max_pages must be at least 1"))
          else fetchBody site (some m) from rfl,
        if_neg (by omega)]
      exact hbody
  refine ⟨hfd, fun p hp => ?_⟩
  rw [hfd] at hp
  simp at hp

theorem C10_no_totalPages_witness :
    fetch_doctors c10Site (some 2) = ([.initial], .ok [.str "a1"]) :=
  (C10_no_totalPages c10Site [("data", .arr [.str "a1"])] [.str "a1"] (some 2)
    rfl rfl rfl (Or.inr ⟨2, rfl, by decide⟩)).1

theorem fetchPages_ok (site : Site) (pages : List Int) (entries : Int → List JVal)
    (h : ∀ p ∈ pages, _fetch_page (site.pageResponse p) p = .ok (.arr (entries p))) :
    fetchPages site pages
      = (pages.map Request.dataPage, .ok (pages.flatMap entries)) := by
  induction pages with
  | nil => rfl
  | cons p rest ih =>
    have hp := h p (by simp)
    have hstep : (do asList (← _fetch_page (site.pageResponse p) p) :
        Except PyErr (List JVal)) = .ok (entries p) := by
      rw [hp]; rfl
    simp only [fetchPages, hstep, ih (fun q hq => h q (by simp [hq]))]
    rfl

/-- C1: with `totalPages = t` on the first page and `max_pages = m ≥ 1`,
`fetch_doctors` yields the first-page entries followed by the entries of
pages 2 through `min t m` in increasing page order, requesting exactly the
initial page and data pages `2..min t m`; no page beyond `min t m` is ever
requested (in particular, with `t = 3` and `m = 2`, page 3 is never
requested). -/
theorem C1_pagination (site : Site) (t m : Int) (first : List JVal)
    (entries : Int → List JVal) (hm : 1 ≤ m)
    (htp : pyGetD site.firstPage "totalPages" (.num 1) = .ok (.num t))
    (hd : pyGetD site.firstPage "data" (.arr []) = .ok (.arr first))
    (hp : ∀ p, 2 ≤ p → p ≤ min t m →
      _fetch_page (site.pageResponse p) p = .ok (.arr (entries p))) :
    fetch_doctors site (some m)
      = (.initial :: (intRange 2 (min t m)).map Request.dataPage,
         .ok (first ++ (intRange 2 (min t m)).flatMap entries)) ∧
    ∀ p, min t m < p → Request.dataPage p ∉ (fetch_doctors site (some m)).1 := by
  have hbody : fetchBody site (some m)
      = (.initial :: (intRange 2 (min t m)).map Request.dataPage,
         .ok (first ++ (intRange 2 (min t m)).flatMap entries)) := by
    unfold fetchBody
    rw [show (do
      let tp ← pyGetD site.firstPage "totalPages" (.num 1)
      let total_pages ← pyInt tp
      let dataV ← pyGetD site.firstPage "data" (.arr [])
      let firstData ← asList dataV
      pure (total_pages, firstData) : Except PyErr (Int × List JVal))
        = .ok (t, first) by
      rw [htp, hd]; rfl]
    simp only [fetchPages_ok site (intRange 2 (min t m)) entries
      (fun q hq => hp q (mem_intRange.mp hq).1 (mem_intRange.mp hq).2),
      Except.map]
  have hfd : fetch_doctors site (some m)
      = (.initial :: (intRange 2 (min t m)).map Request.dataPage,
         .ok (first ++ (intRange 2 (min t m)).flatMap entries)) := by
    rw [show fetch_doctors site (some m)
      = if m < 1 then ([], .error (.valueError "max_pages must be at least 1"))
        else fetchBody site (some m) from rfl,
      if_neg (by omega)]
    exact hbody
  refine ⟨hfd, fun p hple hmem => ?_⟩
  rw [hfd] at hmem
  simp only [List.mem_cons, List.mem_map] at hmem
  rcases hmem with h1 | ⟨q, hq, h2⟩
  · exact Request.noConfusion h1
  · have := mem_intRange.mp hq
    have : q = p := by injection h2
    omega

/-- Concrete site for the C1 witness: `totalPages = 3`, two first-page
entries, one entry per further page. -/
def c1Site : Site :=
  { firstPage := .obj [("totalPages", .num 3), ("data", .arr [.str "a1", .str "a2"])]
    pageResponse := fun p => .obj [("pageProps", .obj [("directoryDoctors",
      .obj [("data", .arr [.str (String.append "b" (toString p))])])])] }

theorem C1_pagination_witness :
    fetch_doctors c1Site (some 2)
      = ([.initial, .dataPage 2], .ok [.str "a1", .str "a2", .str "b2"]) ∧
    Request.dataPage 3 ∉ (fetch_doctors c1Site (some 2)).1 := by
  have h := C1_pagination c1Site 3 2 [.str "a1", .str "a2"]
    (fun p => [.str (String.append "b" (toString p))]) (by decide) rfl rfl
    (by
      intro p h2 h3
      have : p = 2 := by omega
      subst this
      rfl)
  constructor
  · rw [h.1]; rfl
  · exact h.2 3 (by decide)

/-- C6: the CSV output has exactly 13 columns with the fixed header order,
one row per record in input order, regardless of which record fields are
null: the first row is the 13-name header, every row has 13 cells, and row
i+1 renders record i. -/
theorem C6_csv_shape (records : List Record) :
    fieldnames = ["id", "name", "specialty", "city", "address",
      "medical_center", "office", "highlighted_services", "consult_value",
      "premium", "rating_average", "rating_count", "photo_url"] ∧
    (write_output_csv records).length = records.length + 1 ∧
    (write_output_csv records).head? = some fieldnames ∧
    (∀ row ∈ write_output_csv records, row.length = 13) ∧
    (∀ i (h : i < records.length),
      (write_output_csv records)[i + 1]? =
        some (fieldnames.map (fun f => csvCell (recordField records[i] f)))) := by
  refine ⟨rfl, by simp [write_output_csv], rfl, ?_, ?_⟩
  · intro row hrow
    rcases List.mem_cons.mp hrow with rfl | hmem
    · rfl
    · obtain ⟨r, _, rfl⟩ := List.mem_map.mp hmem
      rfl
  · intro i h
    simp [write_output_csv, List.getElem?_map, List.getElem?_eq_getElem h]

/-- A record with every optional field null, used by the C6 witness. -/
def nullRecord : Record :=
  { id := .null, name := "", specialty := .str "", city := .null,
    address := .null, medical_center := .null, office := .null,
    highlighted_services := .null, consult_value := .null, premium := false,
    rating_average := .null, rating_count := .null, photo_url := "" }

theorem C6_csv_shape_witness :
    (write_output_csv [nullRecord]).length = 2 :=
  (C6_csv_shape [nullRecord]).2.1

theorem except_bind_ok {α β : Type} {e : Except PyErr α} {f : α → Except PyErr β}
    {b : β} (h : (e >>= f) = .ok b) : ∃ a, e = .ok a ∧ f a = .ok b := by
  cases e with
  | error err => exact absurd h (by simp [Bind.bind, Except.bind])
  | ok a => exact ⟨a, rfl, h⟩

/-- Total field access on a JSON value: the bound value on a dict that has
the key, `null` otherwise.  (Used by the claim-level reading of the
category fields.) -/
def jField (v : JVal) (k : String) : JVal :=
  match v with
  | .obj fs => (jLookup fs k).getD .null
  | _ => .null

theorem pyGet_ok {v : JVal} {k : String} {u : JVal} (h : pyGet v k = .ok u) :
    u = jField v k := by
  cases v with
  | obj fs =>
    simp only [pyGet, Except.ok.injEq] at h
    rw [← h]; rfl
  | null => exact Except.noConfusion h
  | bool b => exact Except.noConfusion h
  | num n => exact Except.noConfusion h
  | str s => exact Except.noConfusion h
  | arr xs => exact Except.noConfusion h

theorem pyGet_pyOr_obj {v : JVal} {k : String} {r : JVal}
    (h : pyGet (pyOr v (.obj [])) k = .ok r) : r = jField v k := by
  by_cases ht : truthy v
  · rw [pyOr, if_pos ht] at h
    exact pyGet_ok h
  · rw [pyOr, if_neg ht] at h
    simp only [pyGet, Except.ok.injEq] at h
    rw [← h]
    cases v with
    | obj fs =>
      cases fs with
      | nil => rfl
      | cons a rest => simp [truthy] at ht
    | null => rfl
    | bool b => rfl
    | num n => rfl
    | str s => rfl
    | arr xs =>
      cases xs with
      | nil => rfl
      | cons a rest => simp [truthy] at ht

theorem doctor_specialty_eq {d : JVal} {r : JVal} (h : _doctor_specialty d = .ok r) :
    r = pyOr
      (jField (jField (jField d "SubSpecialties") "Specialty") "SpecialityNameEnglish")
      (jField (jField (jField d "SubSpecialties") "Specialty") "SpecialityName") := by
  unfold _doctor_specialty at h
  obtain ⟨ss, hss, h⟩ := except_bind_ok h
  obtain ⟨spRaw, hsp, h⟩ := except_bind_ok h
  obtain ⟨eng, heng, h⟩ := except_bind_ok h
  obtain ⟨loc, hloc, h⟩ := except_bind_ok h
  have h1 := pyGet_ok hss
  have h2 := pyGet_pyOr_obj hsp
  have h3 := pyGet_pyOr_obj heng
  have h4 := pyGet_pyOr_obj hloc
  simp only [pure, Except.pure, Except.ok.injEq] at h
  rw [← h, h3, h4, h2, h1]

/-- A usable category name per the claim's wording: a nonempty string. -/
def strName (v : JVal) : Option String :=
  match v with
  | .str s => if s = "" then none else some s
  | _ => none

/-- The category name of an entry as claim C2 reads it: the English
variant when it is a usable name, else the localized variant when it is a
usable name, else none. -/
def claimCategoryName (d : JVal) : Option String :=
  match strName (jField (jField (jField d "SubSpecialties") "Specialty")
      "SpecialityNameEnglish") with
  | some s => some s
  | none => strName (jField (jField (jField d "SubSpecialties") "Specialty")
      "SpecialityName")

/-- Claim C2's matching predicate, stated from the claim's words: keep an
entry iff it has a category name whose normalized form contains the
normalized target as a substring (case- and accent-insensitive through
`_normalize_text`, a containment test rather than an exact or token
match); entries without a category name never match. -/
def claimMatch (specialty : String) (d : JVal) : Bool :=
  match claimCategoryName d with
  | some s => pyIn (_normalize_text specialty) (_normalize_text s)
  | none => false

theorem strName_falsy {v : JVal} (h : truthy v = false) : strName v = none := by
  cases v <;> simp_all [truthy, strName]

theorem claimCat_eq {d r : JVal} (hok : _doctor_specialty d = .ok r)
    (hty : r = .null ∨ ∃ s, r = .str s) :
    claimCategoryName d = strName r := by
  have he := doctor_specialty_eq hok
  unfold claimCategoryName
  by_cases ht : truthy (jField (jField (jField d "SubSpecialties") "Specialty")
      "SpecialityNameEnglish")
  · have hre : r = jField (jField (jField d "SubSpecialties") "Specialty")
        "SpecialityNameEnglish" := by rw [he, pyOr, if_pos ht]
    rcases hty with rfl | ⟨s, rfl⟩
    · rw [← hre] at ht; simp [truthy] at ht
    · rw [← hre]
      have hs : s ≠ "" := by
        intro hemp
        rw [← hre, hemp] at ht
        simp [truthy] at ht
      simp [strName, hs]
  · have hre : r = jField (jField (jField d "SubSpecialties") "Specialty")
        "SpecialityName" := by
      rw [he, pyOr, if_neg (by simp [ht])]
    rw [strName_falsy (by simpa using ht), ← hre]

/-- C2: for every entry list whose category fields are well-typed (each
entry's specialty chain yields a string or null) and every target string,
`filter_by_specialty` returns exactly the order-preserving subsequence of
the input selected by `claimMatch` — entries with a category name whose
normalized form contains the normalized target as a substring, the
containment being case- and accent-insensitive through `_normalize_text`
rather than an exact or token match; entries without a usable category
name are excluded — and that result is a sublist of the input. -/
theorem C2_filter (doctors : List JVal) (specialty : String)
    (h : ∀ d ∈ doctors, ∃ r, _doctor_specialty d = .ok r ∧
      (r = .null ∨ ∃ s, r = .str s)) :
    filter_by_specialty doctors specialty
        = .ok (doctors.filter (claimMatch specialty)) ∧
    (doctors.filter (claimMatch specialty)).Sublist doctors := by
  refine ⟨?_, List.filter_sublist _⟩
  unfold filter_by_specialty
  induction doctors with
  | nil => rfl
  | cons d rest ih =>
    obtain ⟨r, hok, hty⟩ := h d (by simp)
    have hcat := claimCat_eq hok hty
    have ihr := ih (fun x hx => h x (by simp [hx]))
    rw [List.filter_cons]
    rcases hty with rfl | ⟨s, rfl⟩
    · have hm : claimMatch specialty d = false := by
        unfold claimMatch; rw [hcat]; rfl
      have hstep : filterLoop (_normalize_text specialty) (d :: rest)
          = filterLoop (_normalize_text specialty) rest := by
        simp only [filterLoop, hok]
        rfl
      rw [hstep, ihr, hm]
      simp
    · by_cases hs : s = ""
      · subst hs
        have hm : claimMatch specialty d = false := by
          unfold claimMatch; rw [hcat]; rfl
        have hstep : filterLoop (_normalize_text specialty) (d :: rest)
            = filterLoop (_normalize_text specialty) rest := by
          simp only [filterLoop, hok]
          rfl
        rw [hstep, ihr, hm]
        simp
      · have hm : claimMatch specialty d
            = pyIn (_normalize_text specialty) (_normalize_text s) := by
          unfold claimMatch; rw [hcat]; simp [strName, hs]
        have htr : truthy (.str s) = true := by simp [truthy, hs]
        have hstep : filterLoop (_normalize_text specialty) (d :: rest)
            = (do
              let restM ← filterLoop (_normalize_text specialty) rest
              if pyIn (_normalize_text specialty) (_normalize_text s) then
                pure (d :: restM)
              else pure restM : Except PyErr (List JVal)) := by
          simp only [filterLoop, hok]
          show (if truthy (.str s) then _ else _) = _
          rw [htr]
          rfl
        rw [hstep, ihr, hm]
        by_cases hpy : pyIn (_normalize_text specialty) (_normalize_text s)
        · simp [hpy]
        · simp [hpy]

/-- Entries used in the C2 witness: an English-named gynecologist, an
entry with no category data, and a localized, accented category name. -/
def c2Doctors : List JVal :=
  [.obj [("SubSpecialties", .obj [("Specialty",
      .obj [("SpecialityNameEnglish", .str "Gynecologist")])])],
   .obj [],
   .obj [("SubSpecialties", .obj [("Specialty",
      .obj [("SpecialityName", .str "Ginecología")])])]]

theorem C2_filter_witness :
    filter_by_specialty c2Doctors "GINECOLOG"
      = .ok [.obj [("SubSpecialties", .obj [("Specialty",
          .obj [("SpecialityName", .str "Ginecología")])])]] := by
  have h := (C2_filter c2Doctors "GINECOLOG" (by
    intro d hd
    simp only [c2Doctors, List.mem_cons, List.not_mem_nil, or_false] at hd
    rcases hd with rfl | rfl | rfl
    · exact ⟨.str "Gynecologist", rfl, Or.inr ⟨_, rfl⟩⟩
    · exact ⟨.null, rfl, Or.inl rfl⟩
    · exact ⟨.str "Ginecología", rfl, Or.inr ⟨_, rfl⟩⟩)).1
  rw [h]
  rfl

theorem urljoin_empty (b : String) : urljoin b "" = b := by
  unfold urljoin
  by_cases hb : b = ""
  · simp [hb]
  · simp [hb]

/-- The record `to_record` actually produces for the empty entry (used by
the C3 counterexample). -/
def c3Record : Record :=
  { id := .null, name := "", specialty := .str "", city := .null,
    address := .null, medical_center := .null, office := .null,
    highlighted_services := .null, consult_value := .null, premium := false,
    rating_average := .null, rating_count := .null,
    photo_url := "https://example.com/" }

/-- C3 counterexample: on an entry with every optional substructure
absent, `to_record` succeeds but the fields derived from the absent
category descriptor, names, premium flag and photo path are the empty
string, `false` and the base root — not null — so "produces null for each
field derived from an absent optional substructure" fails as stated; the
specialty field exhibits it. -/
theorem C3_counterexample :
    to_record (.obj []) "https://example.com/en/dir" = .ok c3Record ∧
    c3Record.specialty = .str "" ∧ JVal.str "" ≠ JVal.null :=
  ⟨by rfl, rfl, fun hh => JVal.noConfusion hh⟩

/-- C3 (amended): for every raw entry (a mapping) in which the optional
substructures named by the claim — headquarters descriptor, category
descriptor, ratings summary, photo path, given/family names, premium
flag — are absent, `to_record` never raises, whatever the other fields
hold; the headquarters- and ratings-derived fields are null, while
specialty and name default to the empty string, premium to `false`, and
photo_url to the scheme+host root of the directory URL. -/
theorem C3_total_absent (fs : List (String × JVal)) (url : String)
    (hH : jLookup fs "Headquarters" = none)
    (hS : jLookup fs "SubSpecialties" = none)
    (hR : jLookup fs "RatingsSummary" = none)
    (hP : jLookup fs "Photos" = none)
    (hN : jLookup fs "Name" = none)
    (hL : jLookup fs "LastName" = none)
    (hPr : jLookup fs "Premium" = none) :
    ∃ rec, to_record (.obj fs) url = .ok rec ∧
      rec.city = .null ∧ rec.address = .null ∧ rec.medical_center = .null ∧
      rec.office = .null ∧ rec.rating_average = .null ∧
      rec.rating_count = .null ∧ rec.specialty = .str "" ∧ rec.name = "" ∧
      rec.premium = false ∧ rec.photo_url = _base_root url := by
  have hds : _doctor_specialty (.obj fs) = .ok .null := by
    unfold _doctor_specialty
    rw [show pyGet (.obj fs) "SubSpecialties" = .ok .null by simp [pyGet, hS]]
    rfl
  have hbn : _build_name (.obj fs) = .ok "" := by
    unfold _build_name
    rw [show pyGet (.obj fs) "Name" = .ok .null by simp [pyGet, hN]]
    rw [show pyGet (.obj fs) "LastName" = .ok .null by simp [pyGet, hL]]
    rfl
  simp only [to_record, pyGet, hH, hS, hR, hP, hN, hL, hPr, Option.getD, hds, hbn]
  refine ⟨_, rfl, rfl, rfl, rfl, rfl, rfl, rfl, rfl, rfl, rfl, ?_⟩
  exact urljoin_empty (_base_root url)

/-- C8: whenever an entry's photo path is absent or falsy (`None`, the
empty string, any falsy value), a successful `to_record` sets `photo_url`
to the scheme+host root of the directory URL as produced by `_base_root`
(e.g. `https://example.com/`, with its trailing slash), not null. -/
theorem C8_photo_default (d : JVal) (url : String) (rec : Record) (v : JVal)
    (hok : to_record d url = .ok rec)
    (hp : pyGet d "Photos" = .ok v)
    (hf : truthy v = false) :
    rec.photo_url = _base_root url := by
  unfold to_record at hok
  obtain ⟨headRaw, h1, hok⟩ := except_bind_ok hok
  obtain ⟨specialtyV, h2, hok⟩ := except_bind_ok hok
  obtain ⟨shortId, h3, hok⟩ := except_bind_ok hok
  obtain ⟨rawId, h4, hok⟩ := except_bind_ok hok
  obtain ⟨nm, h5, hok⟩ := except_bind_ok hok
  obtain ⟨cityRaw, h6, hok⟩ := except_bind_ok hok
  obtain ⟨cityName, h7, hok⟩ := except_bind_ok hok
  obtain ⟨addr, h8, hok⟩ := except_bind_ok hok
  obtain ⟨center, h9, hok⟩ := except_bind_ok hok
  obtain ⟨office, h10, hok⟩ := except_bind_ok hok
  obtain ⟨hsEng, h11, hok⟩ := except_bind_ok hok
  obtain ⟨hsv, h12, hok⟩ := except_bind_ok hok
  obtain ⟨consult, h13, hok⟩ := except_bind_ok hok
  obtain ⟨premiumV, h14, hok⟩ := except_bind_ok hok
  obtain ⟨ratings, h15, hok⟩ := except_bind_ok hok
  obtain ⟨ratingAvg, h16, hok⟩ := except_bind_ok hok
  obtain ⟨ratingCnt, h17, hok⟩ := except_bind_ok hok
  obtain ⟨photosV, h18, hok⟩ := except_bind_ok hok
  obtain ⟨photo, h19, hok⟩ := except_bind_ok hok
  rw [hp] at h18
  injection h18 with h18e
  subst h18e
  have hpyor : pyOr v (.str "") = .str "" := by simp [pyOr, hf]
  rw [hpyor] at h19
  injection h19 with h19e
  subst h19e
  simp only [pure, Except.pure, Except.ok.injEq] at hok
  rw [← hok]
  exact urljoin_empty (_base_root url)

/-- The record `to_record` produces for an entry whose photo path is
`None` (used by the C8 witness). -/
def c8Record : Record :=
  { id := .null, name := "", specialty := .str "", city := .null,
    address := .null, medical_center := .null, office := .null,
    highlighted_services := .null, consult_value := .null, premium := false,
    rating_average := .null, rating_count := .null,
    photo_url := "https://example.com/" }

theorem C8_photo_default_witness :
    c8Record.photo_url = _base_root "https://example.com/en/dir" :=
  C8_photo_default (.obj [("Photos", .null)]) "https://example.com/en/dir"
    c8Record .null (by rfl) (by rfl) rfl

theorem takeWhile_all {p : Char → Bool} {l : List Char} (h : ∀ c ∈ l, p c = true) :
    l.takeWhile p = l ∧ l.dropWhile p = [] := by
  induction l with
  | nil => exact ⟨rfl, rfl⟩
  | cons c cs ih =>
    have hc := h c (by simp)
    have hr := ih (fun x hx => h x (by simp [hx]))
    rw [List.takeWhile_cons, List.dropWhile_cons]
    simp [hc, hr.1, hr.2]

theorem takeWhile_append_cons {p : Char → Bool} {l r : List Char} {c : Char}
    (hl : ∀ x ∈ l, p x = true) (hc : p c = false) :
    (l ++ c :: r).takeWhile p = l ∧ (l ++ c :: r).dropWhile p = c :: r := by
  induction l with
  | nil => simp [List.takeWhile_cons, List.dropWhile_cons, hc]
  | cons a as ih =>
    have ha := hl a (by simp)
    have hr := ih (fun x hx => hl x (by simp [hx]))
    simp [List.takeWhile_cons, List.dropWhile_cons, ha, hr.1, hr.2]

theorem splitSegs_ne_nil (cs : List Char) : splitSegs cs ≠ [] := by
  induction cs with
  | nil => simp [splitSegs]
  | cons c rest ih =>
    by_cases hc : c = '/'
    · simp [splitSegs, hc]
    · simp only [splitSegs, if_neg hc]
      cases hs : splitSegs rest with
      | nil => simp
      | cons s ss => simp

theorem joinSegs_splitSegs (cs : List Char) : joinSegs (splitSegs cs) = cs := by
  induction cs with
  | nil => rfl
  | cons c rest ih =>
    by_cases hc : c = '/'
    · subst hc
      simp only [splitSegs, if_pos rfl]
      cases hs : splitSegs rest with
      | nil => exact absurd hs (splitSegs_ne_nil rest)
      | cons s ss =>
        rw [hs] at ih
        show [] ++ '/' :: joinSegs (s :: ss) = '/' :: rest
        rw [ih]
        rfl
    · simp only [splitSegs, if_neg hc]
      cases hs : splitSegs rest with
      | nil => exact absurd hs (splitSegs_ne_nil rest)
      | cons s ss =>
        rw [hs] at ih
        cases ss with
        | nil =>
          show c :: s = c :: rest
          rw [show joinSegs [s] = s from rfl] at ih
          rw [ih]
        | cons t ts =>
          show (c :: s) ++ '/' :: joinSegs (t :: ts) = c :: rest
          rw [show joinSegs (s :: t :: ts) = s ++ '/' :: joinSegs (t :: ts) from rfl] at ih
          rw [List.cons_append, ih]

theorem resolveSegs_noDots (segs : List (List Char)) (acc : List (List Char))
    (h : ∀ seg ∈ segs, seg ≠ ['.'] ∧ seg ≠ ['.', '.']) :
    resolveSegs acc segs = acc.reverse ++ segs := by
  induction segs generalizing acc with
  | nil => simp [resolveSegs]
  | cons seg rest ih =>
    have hseg := h seg (by simp)
    rw [resolveSegs, if_neg hseg.2, if_neg hseg.1,
      ih (seg :: acc) (fun x hx => h x (by simp [hx]))]
    simp

theorem getLast_eq_mem {α : Type} {l : List α} {a : α} (h : l.getLast? = some a) :
    a ∈ l := by
  obtain ⟨hne, rfl⟩ := List.mem_getLast?_eq_getLast h
  exact List.getLast_mem hne

theorem netSplit_not_slashslash {cs : List Char} (h : startsSlashSlash cs = false) :
    netSplit cs = ([], cs) := by
  match cs with
  | [] => rfl
  | [c] => rfl
  | c1 :: c2 :: rest =>
    have hns : ¬(c1 = '/' ∧ c2 = '/') := by
      intro ⟨ha, hb⟩
      subst ha; subst hb
      simp [startsSlashSlash] at h
    simp [netSplit, hns]

theorem splitScheme_cons_notAlpha {c : Char} {rest : List Char}
    (h : alphaChar c = false) : splitScheme (c :: rest) = none := by
  simp [splitScheme, h]

theorem alpha_scheme {c : Char} (h : alphaChar c = true) : schemeChar c = true := by
  simp only [alphaChar, Bool.or_eq_true, decide_eq_true_eq] at h
  simp only [schemeChar, Bool.or_eq_true, decide_eq_true_eq]
  tauto

theorem alpha_lower {c : Char} (h : alphaChar c = true) :
    alphaChar (pyLowerChar c) = true := by
  simp only [alphaChar, Bool.or_eq_true, decide_eq_true_eq] at h
  unfold pyLowerChar
  split
  · next hc =>
    simp only [alphaChar, Bool.or_eq_true, decide_eq_true_eq]
    rw [toNat_ofNat_lt (by omega)]
    omega
  · simpa [alphaChar] using h

theorem scheme_lower {c : Char} (h : schemeChar c = true) :
    schemeChar (pyLowerChar c) = true := by
  simp only [schemeChar, Bool.or_eq_true, decide_eq_true_eq] at h
  unfold pyLowerChar
  split
  · next hc =>
    simp only [schemeChar, Bool.or_eq_true, decide_eq_true_eq]
    rw [toNat_ofNat_lt (by omega)]
    omega
  · simpa [schemeChar] using h

theorem splitScheme_build {d : Char} {sch rest : List Char}
    (hd : alphaChar d = true)
    (hall : ∀ c ∈ d :: sch, schemeChar c = true) :
    splitScheme ((d :: sch) ++ ':' :: rest)
      = some ((d :: sch).map pyLowerChar, rest) := by
  have htw := takeWhile_append_cons (l := d :: sch) (r := rest) (c := ':')
    hall (by decide)
  rw [List.cons_append] at htw
  rw [show (d :: sch) ++ ':' :: rest = d :: (sch ++ ':' :: rest) from rfl]
  simp only [splitScheme, hd, if_true, htw.2, htw.1]

theorem data_eq_nil {s : String} : s.data = [] ↔ s = "" := by
  constructor
  · intro h
    apply String.ext
    simpa using h
  · intro h
    subst h
    rfl

theorem splitScheme_props {cs sch rest : List Char}
    (h : splitScheme cs = some (sch, rest)) :
    (∃ d t, sch = d :: t ∧ alphaChar d = true) ∧
    (∀ c ∈ sch, schemeChar c = true) ∧ sch.map pyLowerChar = sch := by
  cases cs with
  | nil => simp [splitScheme] at h
  | cons d cs' =>
    by_cases hd : alphaChar d
    · simp only [splitScheme, hd, if_true] at h
      cases hdw : (d :: cs').dropWhile schemeChar with
      | nil => rw [hdw] at h; simp at h
      | cons c r =>
        rw [hdw] at h
        dsimp only at h
        by_cases hc : c = ':'
        · rw [if_pos hc] at h
          simp only [Option.some.injEq, Prod.mk.injEq] at h
          obtain ⟨h1, h2⟩ := h
          have htwc : (d :: cs').takeWhile schemeChar
              = d :: cs'.takeWhile schemeChar := by
            rw [List.takeWhile_cons, if_pos (alpha_scheme hd)]
          refine ⟨⟨pyLowerChar d, (cs'.takeWhile schemeChar).map pyLowerChar, ?_,
              alpha_lower hd⟩, ?_, ?_⟩
          · rw [← h1, htwc]; rfl
          · intro x hx
            rw [← h1] at hx
            obtain ⟨y, hy, rfl⟩ := List.mem_map.mp hx
            exact scheme_lower (List.mem_takeWhile_imp hy)
          · rw [← h1, List.map_map]
            exact List.map_congr_left (fun x _ => lower_idem x)
        · rw [if_neg hc] at h; simp at h
    · simp [splitScheme, hd] at h

theorem netSplit_netloc {nl pth : List Char}
    (hnl : ∀ c ∈ nl, netlocChar c = true)
    (hpth : startsSlash pth = true ∨ pth = []) :
    netSplit ('/' :: '/' :: (nl ++ pth)) = (nl, pth) := by
  rcases hpth with hp | rfl
  · cases pth with
    | nil => simp [startsSlash] at hp
    | cons p0 ps =>
      have hp0 : p0 = '/' := by simpa [startsSlash] using hp
      subst hp0
      have htw := takeWhile_append_cons (l := nl) (r := ps) (c := '/') hnl (by decide)
      simp [netSplit, htw.1, htw.2]
  · have htw := takeWhile_all hnl
    simp [netSplit, htw.1, htw.2]

theorem urlparse3_full {d : Char} {t nl pth : List Char}
    (hd : alphaChar d = true)
    (hall : ∀ c ∈ d :: t, schemeChar c = true)
    (hlow : (d :: t).map pyLowerChar = d :: t)
    (hnl : ∀ c ∈ nl, netlocChar c = true)
    (hpth : startsSlash pth = true ∨ pth = []) :
    urlparse3 (String.mk ((d :: t) ++ ':' :: '/' :: '/' :: (nl ++ pth)))
      = (String.mk (d :: t), String.mk nl, String.mk pth) := by
  unfold urlparse3
  rw [show (String.mk ((d :: t) ++ ':' :: '/' :: '/' :: (nl ++ pth))).data
    = (d :: t) ++ ':' :: ('/' :: '/' :: (nl ++ pth)) from rfl]
  rw [splitScheme_build hd hall]
  simp only [hlow, netSplit_netloc hnl hpth]

theorem urlparse3_scheme_only {d : Char} {t : List Char}
    (hd : alphaChar d = true)
    (hall : ∀ c ∈ d :: t, schemeChar c = true)
    (hlow : (d :: t).map pyLowerChar = d :: t) :
    urlparse3 (String.mk ((d :: t) ++ [':', '/'])) = (String.mk (d :: t), "", "/") := by
  unfold urlparse3
  rw [show (String.mk ((d :: t) ++ [':', '/'])).data
    = (d :: t) ++ ':' :: ['/'] from rfl]
  rw [splitScheme_build hd hall]
  simp only [hlow]
  rfl

theorem urlparse3_netloc_only {nl pth : List Char}
    (hnl : ∀ c ∈ nl, netlocChar c = true)
    (hpth : startsSlash pth = true ∨ pth = []) :
    urlparse3 (String.mk ('/' :: '/' :: (nl ++ pth))) = ("", String.mk nl, String.mk pth) := by
  unfold urlparse3
  rw [show (String.mk ('/' :: '/' :: (nl ++ pth))).data
    = '/' :: '/' :: (nl ++ pth) from rfl]
  rw [splitScheme_cons_notAlpha (by decide)]
  simp only [netSplit_netloc hnl hpth]

theorem urlunparse3_full {s n p : String} (hs : s ≠ "") (hn : n ≠ "")
    (hp : startsSlash p.data = true) :
    urlunparse3 s n p = s ++ ":" ++ ("//" ++ n ++ p) := by
  unfold urlunparse3
  have h1 : (n != "") = true := by simpa using hn
  have h2 : (s != "") = true := by simpa using hs
  simp [h1, h2, hp]

theorem urlunparse3_scheme_only {s : String} (hs : s ≠ "") :
    urlunparse3 s "" "/" = s ++ ":" ++ "/" := by
  unfold urlunparse3
  have h2 : (s != "") = true := by simpa using hs
  simp [h2, startsSlashSlash]

theorem urlunparse3_netloc_only {n : String} (hn : n ≠ "") :
    urlunparse3 "" n "/" = "//" ++ n ++ "/" := by
  unfold urlunparse3
  have h1 : (n != "") = true := by simpa using hn
  simp [h1, startsSlash]

theorem urlunparse3_empty_path {s n : String} (hs : s ≠ "") (hn : n ≠ "") :
    urlunparse3 s n "" = s ++ ":" ++ ("//" ++ n ++ "") := by
  unfold urlunparse3
  have h1 : (n != "") = true := by simpa using hn
  have h2 : (s != "") = true := by simpa using hs
  simp [h1, h2, startsSlash, startsSlashSlash]

theorem netSplit_all_netloc (cs : List Char) :
    ∀ c ∈ (netSplit cs).1, netlocChar c = true := by
  match cs with
  | [] => intro c hc; simp [netSplit] at hc
  | [a] => intro c hc; simp [netSplit] at hc
  | c1 :: c2 :: rest =>
    by_cases hss : c1 = '/' ∧ c2 = '/'
    · simp only [netSplit, if_pos hss]
      intro c hc
      exact List.mem_takeWhile_imp hc
    · simp only [netSplit, if_neg hss]
      intro c hc
      simp at hc

theorem urlparse3_props (u : String) :
    ((urlparse3 u).1 = "" ∨
      ((∃ d t, (urlparse3 u).1.data = d :: t ∧ alphaChar d = true) ∧
       (∀ c ∈ (urlparse3 u).1.data, schemeChar c = true) ∧
       (urlparse3 u).1.data.map pyLowerChar = (urlparse3 u).1.data)) ∧
    (∀ c ∈ (urlparse3 u).2.1.data, netlocChar c = true) := by
  unfold urlparse3
  cases hsp : splitScheme u.data with
  | none =>
    exact ⟨Or.inl rfl, fun c hc => netSplit_all_netloc u.data c hc⟩
  | some pr =>
    obtain ⟨sch, rest⟩ := pr
    obtain ⟨hex, hall, hlow⟩ := splitScheme_props hsp
    exact ⟨Or.inr ⟨hex, hall, hlow⟩, fun c hc => netSplit_all_netloc rest c hc⟩

theorem urlparse3_base_root (u : String) :
    urlparse3 (_base_root u) = ((urlparse3 u).1, (urlparse3 u).2.1, "/") := by
  obtain ⟨hsP, hnP⟩ := urlparse3_props u
  by_cases hs0 : (urlparse3 u).1 = ""
  · by_cases hn0 : (urlparse3 u).2.1 = ""
    · rw [show _base_root u = urlunparse3 (urlparse3 u).1 (urlparse3 u).2.1 "/" from rfl,
        hs0, hn0]
      rfl
    · rw [show _base_root u = urlunparse3 (urlparse3 u).1 (urlparse3 u).2.1 "/" from rfl,
        hs0, urlunparse3_netloc_only hn0]
      have harg : ("//" : String) ++ (urlparse3 u).2.1 ++ "/"
          = String.mk ('/' :: '/' :: ((urlparse3 u).2.1.data ++ ['/'])) := by
        apply String.ext
        simp
      rw [harg, urlparse3_netloc_only hnP (show startsSlash ['/'] = true ∨ (['/'] : List Char) = [] by left; decide)]
  · rcases hsP with h | ⟨⟨d, t, hdt, hda⟩, hall, hlow⟩
    · exact absurd h hs0
    rw [hdt] at hall hlow
    by_cases hn0 : (urlparse3 u).2.1 = ""
    · rw [show _base_root u = urlunparse3 (urlparse3 u).1 (urlparse3 u).2.1 "/" from rfl,
        hn0, urlunparse3_scheme_only hs0]
      have harg : (urlparse3 u).1 ++ ":" ++ "/"
          = String.mk ((d :: t) ++ [':', '/']) := by
        apply String.ext
        simp [hdt]
      rw [harg, urlparse3_scheme_only hda hall hlow]
      rw [show String.mk (d :: t) = String.mk (urlparse3 u).1.data by rw [hdt]]
    · rw [show _base_root u = urlunparse3 (urlparse3 u).1 (urlparse3 u).2.1 "/" from rfl,
        urlunparse3_full hs0 hn0 (by decide)]
      have harg : (urlparse3 u).1 ++ ":" ++ ("//" ++ (urlparse3 u).2.1 ++ "/")
          = String.mk ((d :: t) ++ ':' :: '/' :: '/' :: ((urlparse3 u).2.1.data ++ ['/'])) := by
        apply String.ext
        simp [hdt]
      rw [harg, urlparse3_full hda hall hlow hnP (show startsSlash ['/'] = true ∨ (['/'] : List Char) = [] by left; decide)]
      rw [show String.mk (d :: t) = String.mk (urlparse3 u).1.data by rw [hdt]]

theorem base_root_ne_empty (u : String) : _base_root u ≠ "" := by
  intro h
  have hb := urlparse3_base_root u
  rw [h] at hb
  have : ("" : String) = "/" := congrArg (fun x => x.2.2) hb
  exact absurd this (by decide)

theorem contains_netloc_of_relative {s : String}
    (h : usesRelative.contains s = true) : usesNetloc.contains s = true := by
  have hm : s ∈ usesRelative := by
    rw [List.contains_iff_exists_mem_beq] at h
    obtain ⟨a, ha, hb⟩ := h
    rwa [show s = a by simpa using hb.symm]
  fin_cases hm <;> rfl
theorem mk_data (s : String) : String.mk s.data = s := rfl

theorem urljoin_root_rel {u p : String} {s n pp : String}
    (hu : urlparse3 u = (s, n, pp)) (hs : s ≠ "") (hn : n ≠ "")
    (hrel : usesRelative.contains s = true)
    (hp1 : startsSlash p.data = true) (hp2 : startsSlashSlash p.data = false)
    (hnd : ∀ seg ∈ splitSegs p.data, seg ≠ ['.'] ∧ seg ≠ ['.', '.']) :
    urljoin (_base_root u) p = s ++ "://" ++ n ++ p := by
  have hb : urlparse3 (_base_root u) = (s, n, "/") := by
    rw [urlparse3_base_root u, hu]
  have hbne : _base_root u ≠ "" := base_root_ne_empty u
  have hpne : p ≠ "" := by
    intro h
    rw [h] at hp1
    simp [startsSlash] at hp1
  have hschp : splitScheme p.data = none := by
    cases hpd : p.data with
    | nil => rw [hpd] at hp1; simp [startsSlash] at hp1
    | cons c r =>
      rw [hpd] at hp1
      have : c = '/' := by simpa [startsSlash] using hp1
      subst this
      exact splitScheme_cons_notAlpha (by decide)
  have hnsp : netSplit p.data = ([], p.data) := netSplit_not_slashslash hp2
  unfold urljoin
  rw [if_neg hbne, if_neg hpne]
  simp only [hb, hschp, hnsp]
  have hnet := contains_netloc_of_relative hrel
  have hgl1 : (decide ((splitSegs p.data).getLast? = some ['.'])) = false := by
    apply decide_eq_false
    intro hx
    exact (hnd _ (getLast_eq_mem hx)).1 rfl
  have hgl2 : (decide ((splitSegs p.data).getLast? = some ['.', '.'])) = false := by
    apply decide_eq_false
    intro hx
    exact (hnd _ (getLast_eq_mem hx)).2 rfl
  have hc1 : (s != s || !usesRelative.contains s) = false := by
    rw [hrel]
    simp
  rw [if_neg (show ¬((s != s || !usesRelative.contains s) = true) by
    rw [hc1]; simp)]
  rw [if_neg (show ¬((usesNetloc.contains s && (({ data := [] } : String) != "")) = true) by simp)]
  rw [if_neg (show ¬(({ data := p.data } : String) = "") from hpne)]
  rw [if_pos hnet]
  simp only [hp1, eq_self_iff_true, if_true, hgl1, hgl2, Bool.or_self, Bool.or_false,
    if_false, resolveSegs_noDots _ [] hnd, List.reverse_nil, List.nil_append,
    joinSegs_splitSegs]
  rw [if_neg (show ¬((false : Bool) = true) from Bool.false_ne_true)]
  rw [joinSegs_splitSegs]
  rw [if_neg (show ¬(p.data = []) from fun hx => hpne (data_eq_nil.mp hx))]
  rw [show ({ data := p.data } : String) = p from rfl, urlunparse3_full hs hn hp1]
  apply String.ext
  simp

theorem splitSegs_no_slash {cs : List Char} (h : ∀ c ∈ cs, c ≠ '/') :
    splitSegs cs = [cs] := by
  induction cs with
  | nil => rfl
  | cons c rest ih =>
    rw [splitSegs, if_neg (h c (by simp)), ih (fun x hx => h x (by simp [hx]))]

theorem splitScheme_no_colon {cs : List Char} (h : ∀ c ∈ cs, c ≠ ':') :
    splitScheme cs = none := by
  cases cs with
  | nil => rfl
  | cons c r =>
    by_cases ha : alphaChar c
    · simp only [splitScheme, ha, if_true]
      cases hdw : (c :: r).dropWhile schemeChar with
      | nil => rfl
      | cons c' r' =>
        have hc' : c' ∈ c :: r := by
          have hsub := List.dropWhile_sublist (l := c :: r) (p := schemeChar)
          rw [hdw] at hsub
          exact hsub.subset (by simp)
        dsimp only
        rw [if_neg (h c' hc')]
    · simp [splitScheme, ha]

theorem startsSlash_false {cs : List Char} (h : ∀ c ∈ cs, c ≠ '/') :
    startsSlash cs = false := by
  cases cs with
  | nil => rfl
  | cons c r => simp [startsSlash, h c (by simp)]

theorem startsSlashSlash_false {cs : List Char} (h : ∀ c ∈ cs, c ≠ '/') :
    startsSlashSlash cs = false := by
  match cs with
  | [] => rfl
  | [c] => rfl
  | c1 :: c2 :: r => simp [startsSlashSlash, h c1 (by simp)]

theorem urljoin_plain_rel {u p : String} {s n pp : String}
    (hu : urlparse3 u = (s, n, pp)) (hs : s ≠ "") (hn : n ≠ "")
    (hrel : usesRelative.contains s = true) (hpne : p ≠ "")
    (hchars : ∀ c ∈ p.data, c ≠ '/' ∧ c ≠ ':')
    (hd1 : p.data ≠ ['.']) (hd2 : p.data ≠ ['.', '.']) :
    urljoin (_base_root u) p = s ++ "://" ++ n ++ "/" ++ p := by
  have hb : urlparse3 (_base_root u) = (s, n, "/") := by
    rw [urlparse3_base_root u, hu]
  have hbne : _base_root u ≠ "" := base_root_ne_empty u
  have hschp : splitScheme p.data = none :=
    splitScheme_no_colon (fun c hc => (hchars c hc).2)
  have hnsp : netSplit p.data = ([], p.data) :=
    netSplit_not_slashslash (startsSlashSlash_false (fun c hc => (hchars c hc).1))
  have hsp1 : startsSlash p.data = false :=
    startsSlash_false (fun c hc => (hchars c hc).1)
  have hss : splitSegs p.data = [p.data] :=
    splitSegs_no_slash (fun c hc => (hchars c hc).1)
  have hnet := contains_netloc_of_relative hrel
  unfold urljoin
  rw [if_neg hbne, if_neg hpne]
  simp only [hb, hschp, hnsp, hss]
  have hc1 : (s != s || !usesRelative.contains s) = false := by
    rw [hrel]
    simp
  rw [if_neg (show ¬((s != s || !usesRelative.contains s) = true) by
    rw [hc1]; simp)]
  rw [if_neg (show ¬((usesNetloc.contains s && (({ data := [] } : String) != "")) = true) by simp)]
  rw [if_neg (show ¬(({ data := p.data } : String) = "") from hpne)]
  rw [if_pos hnet]
  simp only [hsp1]
  have hfm : (if (false : Bool) = true then [p.data]
      else filterMid ((if (splitSegs ['/']).getLast? = some ([] : List Char)
        then splitSegs ['/'] else (splitSegs ['/']).dropLast) ++ [p.data]))
      = [[], p.data] := by
    rw [if_neg Bool.false_ne_true]
    rfl
  rw [hfm]
  have hres : resolveSegs [] [[], p.data] = [[], p.data] := by
    rw [resolveSegs_noDots]
    · simp
    · intro seg hseg
      simp only [List.mem_cons, List.not_mem_nil, or_false] at hseg
      rcases hseg with rfl | rfl
      · exact ⟨by simp, by simp⟩
      · exact ⟨hd1, hd2⟩
  have hgl : ([[], p.data].getLast? = some ['.']) = False := by
    simp only [List.getLast?_cons_cons, List.getLast?_singleton, Option.some.injEq]
    exact eq_false hd1
  have hgl2 : ([[], p.data].getLast? = some ['.', '.']) = False := by
    simp only [List.getLast?_cons_cons, List.getLast?_singleton, Option.some.injEq]
    exact eq_false hd2
  simp only [hgl, hgl2, decide_False, Bool.or_self, Bool.false_eq_true, if_false, hres]
  have hjs : joinSegs [[], p.data] = '/' :: p.data := rfl
  rw [hjs]
  rw [if_neg (show ¬(('/' :: p.data : List Char) = []) by simp)]
  rw [urlunparse3_full hs hn (show startsSlash (String.mk ('/' :: p.data)).data = true by rfl)]
  apply String.ext
  simp

theorem urljoin_absolute (u : String) {s2 n2 p2 : String}
    (hsx : ∃ d t, s2.data = d :: t ∧ alphaChar d = true)
    (hall : ∀ c ∈ s2.data, schemeChar c = true)
    (hlow : s2.data.map pyLowerChar = s2.data)
    (hn : n2 ≠ "") (hnl : ∀ c ∈ n2.data, netlocChar c = true)
    (hp : startsSlash p2.data = true ∨ p2 = "") :
    urljoin (_base_root u) (s2 ++ "://" ++ n2 ++ p2) = s2 ++ "://" ++ n2 ++ p2 := by
  obtain ⟨d, t, hdt, hda⟩ := hsx
  rw [hdt] at hall hlow
  have hs2 : s2 ≠ "" := by
    intro h
    rw [h] at hdt
    exact List.noConfusion hdt
  have hbne : _base_root u ≠ "" := base_root_ne_empty u
  have hane : s2 ++ "://" ++ n2 ++ p2 ≠ "" := by
    intro h
    have h2 := congrArg String.data h
    simp [hdt] at h2
  have harg : s2 ++ "://" ++ n2 ++ p2
      = String.mk ((d :: t) ++ ':' :: '/' :: '/' :: (n2.data ++ p2.data)) := by
    apply String.ext
    simp [hdt]
  have hp2 : startsSlash p2.data = true ∨ p2.data = [] := by
    rcases hp with h | h
    · exact Or.inl h
    · exact Or.inr (by rw [h])
  have hsplit : splitScheme (s2 ++ "://" ++ n2 ++ p2).data
      = some (d :: t, '/' :: '/' :: (n2.data ++ p2.data)) := by
    rw [harg]
    rw [show (String.mk ((d :: t) ++ ':' :: '/' :: '/' :: (n2.data ++ p2.data))).data
      = (d :: t) ++ ':' :: ('/' :: '/' :: (n2.data ++ p2.data)) from rfl]
    rw [splitScheme_build hda hall, hlow]
  have hns : netSplit ('/' :: '/' :: (n2.data ++ p2.data)) = (n2.data, p2.data) :=
    netSplit_netloc hnl hp2
  unfold urljoin
  rw [if_neg hbne, if_neg hane]
  simp only [urlparse3_base_root u, hsplit, hns]
  simp only [← hdt, mk_data]
  by_cases hcond : (s2 != (urlparse3 u).1 || !usesRelative.contains s2) = true
  · rw [if_pos hcond]
  · rw [if_neg hcond]
    have hrel : usesRelative.contains s2 = true := by
      cases hcontains : usesRelative.contains s2 with
      | true => rfl
      | false =>
        exact absurd (by rw [hcontains]; simp : (s2 != (urlparse3 u).1
          || !usesRelative.contains s2) = true) hcond
    have hnet2 := contains_netloc_of_relative hrel
    have hn2b : (n2 != "") = true := by simpa using hn
    rw [if_pos (show (usesNetloc.contains s2 && (n2 != "")) = true by
      rw [hnet2, hn2b]; rfl)]
    rcases hp with hrootp | hempty
    · rw [urlunparse3_full hs2 hn hrootp]
      apply String.ext
      simp
    · rw [hempty, urlunparse3_empty_path hs2 hn]
      apply String.ext
      simp

/-- C5: (i) concretely, an entry whose photo path is the relative path
`/img/x.jpg` on directory URL `https://example.com/en/dir` gets photo_url
`https://example.com/img/x.jpg`; (ii) in general a root-relative photo
path (no dot segments) is resolved against the directory URL's
scheme+host root; (iii) a slashless relative photo path is resolved
against the root with a separating slash; (iv) an absolute photo URL
passes through `urljoin` unchanged. -/
theorem C5_photo_resolution :
    ((to_record (.obj [("Photos", .str "/img/x.jpg")]) "https://example.com/en/dir").map
        Record.photo_url = .ok "https://example.com/img/x.jpg") ∧
    (∀ u p s n pp, urlparse3 u = (s, n, pp) → s ≠ "" → n ≠ "" →
      usesRelative.contains s = true →
      startsSlash p.data = true → startsSlashSlash p.data = false →
      (∀ seg ∈ splitSegs p.data, seg ≠ ['.'] ∧ seg ≠ ['.', '.']) →
      urljoin (_base_root u) p = s ++ "://" ++ n ++ p) ∧
    (∀ u p s n pp, urlparse3 u = (s, n, pp) → s ≠ "" → n ≠ "" →
      usesRelative.contains s = true → p ≠ "" →
      (∀ c ∈ p.data, c ≠ '/' ∧ c ≠ ':') → p.data ≠ ['.'] → p.data ≠ ['.', '.'] →
      urljoin (_base_root u) p = s ++ "://" ++ n ++ "/" ++ p) ∧
    (∀ u s2 n2 p2, (∃ d t, s2.data = d :: t ∧ alphaChar d = true) →
      (∀ c ∈ s2.data, schemeChar c = true) →
      s2.data.map pyLowerChar = s2.data →
      n2 ≠ "" → (∀ c ∈ n2.data, netlocChar c = true) →
      (startsSlash p2.data = true ∨ p2 = "") →
      urljoin (_base_root u) (s2 ++ "://" ++ n2 ++ p2) = s2 ++ "://" ++ n2 ++ p2) := by
  refine ⟨by rfl,
    fun u p s n pp hu hs hn hrel hp1 hp2 hnd =>
      urljoin_root_rel hu hs hn hrel hp1 hp2 hnd,
    fun u p s n pp hu hs hn hrel hpne hch hd1 hd2 =>
      urljoin_plain_rel hu hs hn hrel hpne hch hd1 hd2,
    fun u s2 n2 p2 hsx hall hlow hnx hnl hp =>
      urljoin_absolute u hsx hall hlow hnx hnl hp⟩

theorem C5_photo_resolution_witness :
    urljoin (_base_root "https://example.com/en/dir") "/a/b" = "https://example.com/a/b" ∧
    urljoin (_base_root "https://example.com/en/dir") "img.jpg" = "https://example.com/img.jpg" ∧
    urljoin (_base_root "https://example.com/en/dir") "https://cdn.org/p.jpg"
      = "https://cdn.org/p.jpg" := by
  refine ⟨?_, ?_, ?_⟩
  · have h := C5_photo_resolution.2.1 "https://example.com/en/dir" "/a/b"
      "https" "example.com" "/en/dir" rfl (by decide) (by decide) (by decide)
      (by decide) (by decide) (by decide)
    rw [h]
    rfl
  · have h := C5_photo_resolution.2.2.1 "https://example.com/en/dir" "img.jpg"
      "https" "example.com" "/en/dir" rfl (by decide) (by decide) (by decide)
      (by decide) (by decide) (by decide) (by decide)
    rw [h]
    rfl
  · have h := C5_photo_resolution.2.2.2 "https://example.com/en/dir"
      "https" "cdn.org" "/p.jpg" ⟨'h', "ttps".data, rfl, by decide⟩
      (by decide) (by decide) (by decide) (by decide) (Or.inl (by decide))
    rw [show ("https://cdn.org/p.jpg" : String)
      = "https" ++ "://" ++ "cdn.org" ++ "/p.jpg" from rfl]
    exact h

theorem C3_total_absent_witness :
    (to_record (.obj [("ConsultValue", .num 5)]) "https://example.org/x").map
      Record.city = .ok .null := by
  obtain ⟨rec, hok, hcity, _⟩ := C3_total_absent [("ConsultValue", .num 5)]
    "https://example.org/x" rfl rfl rfl rfl rfl rfl rfl
  rw [hok]
  simp [Except.map, hcity]
